/-
  Verification of core behaviours of the LocusZoom data-resolution and
  viewport engines (src/locuszoom.app.js), via a shallow embedding in Lean 4.

  Conventions of the embedding:
  * JavaScript `undefined` is `Option.none`; a defined value `v` is `some v`.
  * Numeric values are `Int` where the source works with integers
    (`parseInt`, genomic positions) and `ℚ` where it works with general
    numbers (extents, buffers, proportions).  JavaScript `NaN` arising from a
    failed `parseInt` is modelled as `none`.
  * Thrown exceptions are `Except.error` with the thrown message.
  * Mutation is modelled by returning the updated structure.
-/
import Mathlib

namespace LocusZoom

/-! ## Source request cache (`LocusZoom.Data.Source.prototype.getRequest`)

The relevant mutable per-source state is `enableCache`, `_cachedKey` and
`_cachedResponse`; both `_cachedKey` and `_cachedResponse` start out
`undefined`.  `getRequest` computes a cache key, serves the cached response
when the cache is enabled, the key is defined and loosely equal to the stored
key, and otherwise fetches and (when the cache is enabled) stores the
`(key, response)` pair in the single slot. -/

structure SourceCache (κ ρ : Type) where
  enableCache : Bool
  /-- `this._cachedKey`; `none` models `undefined`. -/
  cachedKey : Option κ
  /-- `this._cachedResponse`; `none` models `undefined`. -/
  cachedResponse : Option ρ
deriving Repr, DecidableEq

/-- A fresh source: `_cachedKey` and `_cachedResponse` are `undefined`. -/
def SourceCache.init (κ ρ : Type) : SourceCache κ ρ :=
  { enableCache := true, cachedKey := none, cachedResponse := none }

/-- Result of one `getRequest` resolution: the response the promise resolves
with (`none` only if an undefined cached response were served), the updated
source state, and whether `fetchRequest` (network I/O) was issued. -/
structure RequestResult (κ ρ : Type) where
  response : Option ρ
  source : SourceCache κ ρ
  fetched : Bool
deriving Repr, DecidableEq

/-- `LocusZoom.Data.Source.prototype.getRequest`.  `cacheKey` is the value
returned by `getCacheKey(state, chain, fields)` (its `undefined` is `none`);
`fetchResp` is the response the network would deliver for this request. -/
def getRequest [DecidableEq κ] (src : SourceCache κ ρ) (cacheKey : Option κ)
    (fetchResp : ρ) : RequestResult κ ρ :=
  if src.enableCache ∧ cacheKey.isSome ∧ cacheKey = src.cachedKey then
    { response := src.cachedResponse, source := src, fetched := false }
  else
    let src' := if src.enableCache then
        { src with cachedKey := cacheKey, cachedResponse := some fetchResp }
      else src
    { response := some fetchResp, source := src', fetched := true }

/-! ## State validation (`LocusZoom.validateState`)

Only the region-coordinate logic is embedded: the function receives the
(possibly `undefined`, possibly non-numeric) `chr`/`start`/`end` entries and
the layout's `min_region_scale`/`max_region_scale`, and yields the repaired
`start`/`end`.  `parseInt` of a non-numeric value (`NaN`) is `none`. -/

structure RegionIn where
  chr : Option Int
  start : Option Int
  «end» : Option Int
deriving Repr, DecidableEq

structure RegionLayout where
  min_region_scale : Option Int
  max_region_scale : Option Int
deriving Repr, DecidableEq

structure RegionOut where
  start : Option Int
  «end» : Option Int
deriving Repr, DecidableEq

/-- JavaScript `Math.round((start + end) / 2)` on integers: halves round up. -/
def jsRoundHalf (s e : Int) : Int := (s + e + 1).fdiv 2

/-- `LocusZoom.validateState`, restricted to the fields it reads and writes.
Mirrors the source statement by statement; the `attempted_scale < 0` branch
reproduces the source's `temp` shuffle literally
(`temp = start; end = start; start = temp`). -/
def validateState (st : RegionIn) (layout : RegionLayout) : RegionOut :=
  if st.chr.isSome ∧ st.start.isSome ∧ st.«end».isSome then
    -- new_state.start = Math.max(parseInt(new_state.start), 1) — NaN stays NaN
    let s0 : Option Int := st.start.map (fun v => max v 1)
    let e0 : Option Int := st.«end».map (fun v => max v 1)
    let (s1, e1, midpoint, scale) : Int × Int × Int × Int :=
      match s0, e0 with
      | none, none => (1, 1, 0, 0)          -- attempted_midpoint = 0.5 → round to 0 unused
      | none, some e => (e, e, e, 0)
      | some s, none => (s, s, s, 0)
      | some s, some e =>
        let mid := jsRoundHalf s e
        let sc := e - s
        if sc < 0 then
          -- var temp = start; end = start; start = temp
          let temp := s
          let e' := s
          let s' := temp
          if mid < 0 then (1, 1, mid, 0) else (s', e', mid, e' - s')
        else
          if mid < 0 then (1, 1, mid, 0) else (s, e, mid, sc)
    let (s2, e2) : Int × Int :=
      match layout.min_region_scale with
      | some m =>
        if scale < m then
          let s' := max (midpoint - m.fdiv 2) 1
          (s', s' + m)
        else (s1, e1)
      | none => (s1, e1)
    let (s3, e3) : Int × Int :=
      match layout.max_region_scale with
      | some m =>
        if scale > m then
          let s' := max (midpoint - m.fdiv 2) 1
          (s', s' + m)
        else (s2, e2)
      | none => (s2, e2)
    { start := some s3, «end» := some e3 }
  else
    { start := st.start, «end» := st.«end» }

/-! ## LD merge join (`LocusZoom.Data.LDSource.prototype.parseResponse`)

The `leftJoin` closure walks the chain body (`left`, ascending by the merge
position field found by `findMergeFields`) and the response's parallel
`position2`/`rsquare` arrays with two cursors `i`, `j`: on equal positions it
assigns `right.rsquare[j]` into the chain row's requested LD output column and
advances both cursors; otherwise it advances whichever side is behind.  A
chain row is `pos` (the value of the merge position field), `ld` (the
requested LD output column, `none` while unset) and `rest` (every other
field, which the join never touches). -/

structure LDRow where
  pos : Int
  ld : Option ℚ
  rest : List (String × Int)
deriving Repr, DecidableEq

/-- The merge loop of `LDSource.parseResponse`: `left` is `chain.body`,
`rpos` is `right.position2`, `rsq` is `right.rsquare` (read positionally, so
an out-of-range `rsquare[j]` is `undefined`, i.e. `none`). -/
def leftJoin : List LDRow → List Int → List ℚ → List LDRow
  | l, [], _ => l
  | [], _ :: _, _ => []
  | a :: l, p :: ps, rs =>
    if a.pos = p then
      { a with ld := rs.head? } :: leftJoin l ps rs.tail
    else if a.pos < p then
      a :: leftJoin l (p :: ps) rs
    else
      leftJoin (a :: l) ps rs.tail
termination_by l ps _ => l.length + ps.length

/-- Specification-side positionwise lookup used to characterise `leftJoin`:
the `rsquare` value paired with the first occurrence of `q` in the parallel
`position2`/`rsquare` arrays, if any. -/
def ldLookup (q : Int) : List Int → List ℚ → Option ℚ
  | [], _ => none
  | _ :: _, [] => none
  | p :: ps, r :: rs => if q = p then some r else ldLookup q ps rs

/-! ## Default response parsing (`Source.prototype.parseArraysToObjects`,
`Source.prototype.parseObjectsToObjects`)

JavaScript objects are assoc lists with distinct keys; property access is
`List.lookup` (`none` is `undefined`).  A transform entry is `none` for the
`null` pushed by the Requester when a field has no transform suffix, and a
JavaScript function otherwise — applied to the (possibly undefined) looked-up
value, hence typed `Option α → Option α`.  Record keys are
`record[outnames[j]]`; an out-of-range `outnames[j]` stringifies to
`"undefined"` as in JavaScript. -/

/-- String coercion of a possibly-undefined key, as JavaScript performs when
an `undefined` value is used as a property name. -/
def jsShowOpt : Option String → String
  | none => "undefined"
  | some s => s

/-- The `fields.forEach` guard of `parseArraysToObjects`: throw on the first
requested field that is not a key of the object-of-arrays response. -/
def checkFieldsPresent (keys : List String) :
    List String → List String → Except String Unit
  | [], _ => .ok ()
  | f :: fs, outs =>
    if f ∈ keys then checkFieldsPresent keys fs outs.tail
    else .error ("field " ++ f ++ " not found in response for " ++
      jsShowOpt outs.head?)

/-- One record of `parseArraysToObjects`: for row index `i`, read
`x[fields[j]][i]`, apply `trans[j]` when present, store under `outnames[j]`. -/
def arrayRecord (x : List (String × List α)) (i : Nat) :
    List String → List String → List (Option (Option α → Option α)) →
    List (String × Option α)
  | [], _, _ => []
  | f :: fs, outs, ts =>
    let val0 : Option α := ((List.lookup f x).getD []).get? i
    let val : Option α :=
      match ts.head?.getD none with
      | some t => t val0
      | none => val0
    (jsShowOpt outs.head?, val) :: arrayRecord x i fs outs.tail ts.tail

/-- `LocusZoom.Data.Source.prototype.parseArraysToObjects`.  After the field
guard, the row count `N` is the length of the array under the SECOND key
(`x[Object.keys(x)[1]].length`); with fewer than two keys that access throws
a `TypeError`. -/
def parseArraysToObjects (x : List (String × List α))
    (fields outnames : List String)
    (trans : List (Option (Option α → Option α))) :
    Except String (List (List (String × Option α))) :=
  match checkFieldsPresent (x.map Prod.fst) fields outnames with
  | .error e => .error e
  | .ok () =>
    match x.get? 1 with
    | none => .error "TypeError: cannot read property length of undefined"
    | some (_, arr) =>
      .ok ((List.range arr.length).map fun i =>
        arrayRecord x i fields outnames trans)

/-- `fieldFound[j]` of `parseObjectsToObjects`: whether any row of the
array-of-objects response defines the field. -/
def objectsFieldFound (x : List (List (String × α))) (f : String) : Bool :=
  x.any fun row => (List.lookup f row).isSome

/-- One record of `parseObjectsToObjects`: read `x[i][fields[j]]`, apply
`trans[j]` when present, store under `outnames[j]`. -/
def objectRecord (row : List (String × α)) :
    List String → List String → List (Option (Option α → Option α)) →
    List (String × Option α)
  | [], _, _ => []
  | f :: fs, outs, ts =>
    let val0 : Option α := List.lookup f row
    let val : Option α :=
      match ts.head?.getD none with
      | some t => t val0
      | none => val0
    (jsShowOpt outs.head?, val) :: objectRecord row fs outs.tail ts.tail

/-- The `fieldFound.forEach` guard of `parseObjectsToObjects`: throw on the
first requested field that no row of the response defines. -/
def checkFieldsFound (x : List (List (String × α))) :
    List String → List String → Except String Unit
  | [], _ => .ok ()
  | f :: fs, outs =>
    if objectsFieldFound x f then checkFieldsFound x fs outs.tail
    else .error ("field " ++ f ++ " not found in response for " ++
      jsShowOpt outs.head?)

/-- `LocusZoom.Data.Source.prototype.parseObjectsToObjects`: records are
built first, then the found-guard runs and may discard them by throwing. -/
def parseObjectsToObjects (x : List (List (String × α)))
    (fields outnames : List String)
    (trans : List (Option (Option α → Option α))) :
    Except String (List (List (String × Option α))) :=
  let records := x.map fun row => objectRecord row fields outnames trans
  match checkFieldsFound x fields outnames with
  | .error e => .error e
  | .ok () => .ok records

/-! ## Axis extents (`LocusZoom.DataLayer.prototype.getAxisExtent`)

The data layer's axis configuration carries the keys the function consults;
`data` is the list of numeric values `+d[field]` over the layer's rows.  The
returned extent is the (possibly empty) array the function returns. -/

inductive Dim | x | y
deriving Repr, DecidableEq

structure AxisLayout where
  field : Option String
  floor : Option ℚ
  ceiling : Option ℚ
  lower_buffer : Option ℚ
  upper_buffer : Option ℚ
  min_extent : Option (ℚ × ℚ)
deriving Repr, DecidableEq

/-- `d3.extent`-style minimum of a list of numbers (only consulted on
non-empty lists; `0` is an arbitrary value for the unreachable `[]` case). -/
def d3min : List ℚ → ℚ
  | [] => 0
  | v :: vs => vs.foldl min v

/-- `d3.extent`-style maximum, as `d3min`. -/
def d3max : List ℚ → ℚ
  | [] => 0
  | v :: vs => vs.foldl max v

/-- Steps (2)-(4) of the extent computation: the raw data range, widened by
the optional proportional buffers and the optional configured minimum extent,
re-collapsed with `d3.extent`. -/
def derivedExtent (ax : AxisLayout) (data : List ℚ) : ℚ × ℚ :=
  let mn := d3min data
  let mx := d3max data
  let span := mx - mn
  let cands := [mn, mx] ++
    (match ax.lower_buffer with
     | some b => [mn - span * b]
     | none => []) ++
    (match ax.upper_buffer with
     | some b => [mx + span * b]
     | none => []) ++
    (match ax.min_extent with
     | some me => [me.1, me.2]
     | none => [])
  (d3min cands, d3max cands)

/-- `LocusZoom.DataLayer.prototype.getAxisExtent`: floor+ceiling verbatim;
else data-derived extent with the final `extent[0] = floor` /
`extent[1] = ceiling` overwrites; else the x-axis state fallback; else `[]`. -/
def getAxisExtent (dim : Dim) (ax : AxisLayout) (data : List ℚ)
    (stateStart stateEnd : Option ℚ) : List ℚ :=
  if ax.floor.isSome ∧ ax.ceiling.isSome then
    [ax.floor.getD 0, ax.ceiling.getD 0]
  else if ax.field.isSome ∧ data ≠ [] then
    let ext := derivedExtent ax data
    [ax.floor.getD ext.1, ax.ceiling.getD ext.2]
  else if dim = Dim.x ∧ stateStart.isSome ∧ stateEnd.isSome then
    [stateStart.getD 0, stateEnd.getD 0]
  else []

/-! ## Drag commit (`LocusZoom.Panel.prototype.toggleDragging`)

A data layer's per-axis configuration, with the keys `overrideAxisLayout`
reads and writes (`axis` is the 1/2 axis binding number; the loose `==`
against the number `1` or the character `method[1]` is numeric equality on
defined values and false on `undefined`). -/

structure DLAxisLayout where
  axis : Option Nat
  field : Option String
  floor : Option ℚ
  ceiling : Option ℚ
  lower_buffer : Option ℚ
  upper_buffer : Option ℚ
  min_extent : Option (ℚ × ℚ)
  ticks : Option (List ℚ)
deriving Repr, DecidableEq

structure DataLayerAxes where
  x_axis : DLAxisLayout
  y_axis : DLAxisLayout
deriving Repr, DecidableEq

structure DragState where
  method : Option String
  start_x : ℚ
  start_y : ℚ
  dragged_x : ℚ
  dragged_y : ℚ
  on_x : Bool
  on_y1 : Bool
  on_y2 : Bool
deriving Repr, DecidableEq

structure Panel where
  dragging : Option DragState
  data_layers : List DataLayerAxes
  x_extent : ℚ × ℚ
  y1_extent : ℚ × ℚ
  y2_extent : ℚ × ℚ
  /-- Record of `parent.applyState({start, end})` issued by an x-commit. -/
  pendingApplyState : Option (ℚ × ℚ)
deriving Repr, DecidableEq

/-- The floor/ceiling overwrite `overrideAxisLayout` performs on one bound
axis layout: floor/ceiling become the extent, the `lower_buffer`,
`upper_buffer`, `min_extent` and `ticks` directives are deleted. -/
def overwriteAxis (a : DLAxisLayout) (extent : ℚ × ℚ) : DLAxisLayout :=
  { a with
    floor := some extent.1
    ceiling := some extent.2
    lower_buffer := none
    upper_buffer := none
    min_extent := none
    ticks := none }

/-- `overrideAxisLayout` of `toggleDragging`: every data layer (z order)
whose named axis layout carries `axis == axis_number` has that layout
overwritten with the extent. -/
def overrideAxisLayout (axis : Dim) (axisNumber : Nat) (extent : ℚ × ℚ)
    (layers : List DataLayerAxes) : List DataLayerAxes :=
  layers.map fun dl =>
    match axis with
    | Dim.x =>
      if dl.x_axis.axis = some axisNumber then
        { dl with x_axis := overwriteAxis dl.x_axis extent }
      else dl
    | Dim.y =>
      if dl.y_axis.axis = some axisNumber then
        { dl with y_axis := overwriteAxis dl.y_axis extent }
      else dl

/-- `LocusZoom.Panel.prototype.toggleDragging`.  With a drag in progress the
stop branch runs: the dragged axis commits only when its net displacement is
non-zero (x drags also issue `applyState` with the new extent), and
`interactions.dragging` is cleared.  Otherwise, if interaction is allowed, a
drag for `method` starts at the pointer coordinates. -/
def toggleDragging (p : Panel) (method : Option String) (canInteract : Bool)
    (coords : ℚ × ℚ) : Panel :=
  match p.dragging with
  | some d =>
    let p1 :=
      if d.method = some "background" ∨ d.method = some "x_tick" then
        if d.dragged_x ≠ 0 then
          { p with
            data_layers := overrideAxisLayout Dim.x 1 p.x_extent p.data_layers,
            pendingApplyState := some p.x_extent }
        else p
      else if d.method = some "y1_tick" ∨ d.method = some "y2_tick" then
        if d.dragged_y ≠ 0 then
          -- y_axis_number = method[1]
          let n : Nat := if d.method = some "y1_tick" then 1 else 2
          let ext := if n = 1 then p.y1_extent else p.y2_extent
          { p with data_layers := overrideAxisLayout Dim.y n ext p.data_layers }
        else p
      else p
    { p1 with dragging := none }
  | none =>
    if canInteract then
      { p with
        dragging := some
          { method := method
            start_x := coords.1
            start_y := coords.2
            dragged_x := 0
            dragged_y := 0
            on_x := method = some "background" ∨ method = some "x_tick"
            on_y1 := method = some "y1_tick"
            on_y2 := method = some "y2_tick" } }
    else p

/-- What a finished drag must do to the child data layers: committed axes get
their bound layers' layouts overwritten with the extent (other layers and the
other axis untouched), and a zero-displacement drag leaves every layer
exactly as it was. -/
def dragCommitSpec (p : Panel) (m : Option String) (ci : Bool)
    (co : ℚ × ℚ) (d : DragState) : Prop :=
  ((d.method = some "background" ∨ d.method = some "x_tick") →
    d.dragged_x ≠ 0 →
    (toggleDragging p m ci co).data_layers.length = p.data_layers.length ∧
    ∀ i old new, p.data_layers.get? i = some old →
      (toggleDragging p m ci co).data_layers.get? i = some new →
      (old.x_axis.axis = some 1 →
        new = { old with x_axis := overwriteAxis old.x_axis p.x_extent }) ∧
      (old.x_axis.axis ≠ some 1 → new = old) ∧
      new.y_axis = old.y_axis) ∧
  (∀ n : Nat,
    (n = 1 ∧ d.method = some "y1_tick") ∨ (n = 2 ∧ d.method = some "y2_tick") →
    d.dragged_y ≠ 0 →
    (toggleDragging p m ci co).data_layers.length = p.data_layers.length ∧
    ∀ i old new, p.data_layers.get? i = some old →
      (toggleDragging p m ci co).data_layers.get? i = some new →
      (old.y_axis.axis = some n →
        new = { old with
                y_axis := overwriteAxis old.y_axis
                  (if n = 1 then p.y1_extent else p.y2_extent) }) ∧
      (old.y_axis.axis ≠ some n → new = old) ∧
      new.x_axis = old.x_axis) ∧
  ((((d.method = some "background" ∨ d.method = some "x_tick") ∧
      d.dragged_x = 0) ∨
    ((d.method = some "y1_tick" ∨ d.method = some "y2_tick") ∧
      d.dragged_y = 0)) →
    (toggleDragging p m ci co).data_layers = p.data_layers)

/-! ## Proportional panel heights (`LocusZoom.Plot.prototype.positionPanels`,
`LocusZoom.Plot.prototype.sumProportional`)

Only the height fields the normalization pass reads and writes are modelled;
panels are listed in object-key insertion order. -/

structure PanelDim where
  height : ℚ
  /-- `layout.proportional_height`; `none` models `null`/`undefined`. -/
  proportional_height : Option ℚ
deriving Repr, DecidableEq

/-- First loop of `positionPanels`: a panel whose proportional height is
`null` gets its pixel height divided by the plot height. -/
def assignProportionalFromPixels (H : ℚ) (ps : List PanelDim) : List PanelDim :=
  ps.map fun p =>
    match p.proportional_height with
    | none => { p with proportional_height := some (p.height / H) }
    | some _ => p

/-- `LocusZoom.Plot.prototype.sumProportional` for the height dimension: any
panel whose proportional height is falsy (`undefined` or `0`) is assigned the
equal share `1 / N` as the loop passes it, and the total is returned together
with the panels as mutated. -/
def sumProportional (ps : List PanelDim) : ℚ × List PanelDim :=
  let padded := ps.map fun p =>
    if p.proportional_height.getD 0 = 0 then
      { p with proportional_height := some (1 / (ps.length : ℚ)) }
    else p
  ((padded.map fun p => p.proportional_height.getD 0).sum, padded)

/-- The height-normalization pass of `positionPanels`: default missing
proportional heights from pixel heights, pad falsy ones via
`sumProportional`, then — unless the total is falsy, which aborts the pass —
scale every panel by `1 / total`. -/
def positionPanelsHeights (H : ℚ) (ps : List PanelDim) : List PanelDim :=
  let res := sumProportional (assignProportionalFromPixels H ps)
  if res.1 = 0 then res.2
  else res.2.map fun p =>
    { p with proportional_height := p.proportional_height.map (· * (1 / res.1)) }

/-! ## Requester (`LocusZoom.Data.Requester`)

`split_requests` parses each raw field against
`^(?:([^:]+):)?([^:\|]*)(\|.+)*$` and groups the parses by namespace in a
plain object, preserving key-insertion (first appearance) order; `getData`
then resolves each namespace's source once, chaining resolutions in that
order starting from the empty chain.  Transform resolution is kept symbolic
(the raw `parts[3]` text, `none` for a missing suffix), since the transform
registry is an external collaborator here. -/

/-- The tail `([^:\|]*)(\|.+)*$` of the field-spec regex, over the string's
character list: the field name is the maximal prefix without `:` or `|`; the
remainder must be empty or a `|` followed by at least one character
(otherwise the whole regex fails). -/
def fieldSpecTail (t : List Char) : Option (String × Option String) :=
  let f := t.takeWhile fun c => decide (c ≠ ':' ∧ c ≠ '|')
  let r := t.drop f.length
  if r.isEmpty then some (String.mk f, none)
  else if r.head? = some '|' ∧ 2 ≤ r.length then
    some (String.mk f, some (String.mk r))
  else none

/-- `re.exec(raw)` for `^(?:([^:]+):)?([^:\|]*)(\|.+)*$`: the optional group
is the non-empty text before the first `:`; a second `:` anywhere later, a
leading `:`, or a trailing bare `|` make the whole match fail (`null`). -/
def matchFieldSpec (s : String) :
    Option (Option String × String × Option String) :=
  let cs := s.toList
  let pre := cs.takeWhile (· ≠ ':')
  if pre.length = cs.length then
    (fieldSpecTail cs).map fun ft => (none, ft.1, ft.2)
  else if pre.isEmpty then none
  else (fieldSpecTail (cs.drop (pre.length + 1))).map fun ft =>
    (some (String.mk pre), ft.1, ft.2)

/-- The namespace a raw field contributes to: group 1 of the regex, or the
reserved `"base"` when the namespace prefix is absent. -/
def nsOf (raw : String) : Option String :=
  (matchFieldSpec raw).map fun x => x.1.getD "base"

/-- One entry of the Requester's `requests[ns]` object. -/
structure SplitReq where
  outnames : List String
  fields : List String
  trans : List (Option String)
deriving Repr, DecidableEq

/-- `requests[ns].outnames.push(raw)` etc.: update the namespace's entry in
place, or append a fresh entry for a first-seen namespace. -/
def insertReq : List (String × SplitReq) → String → String → String →
    Option String → List (String × SplitReq)
  | [], ns, raw, f, tr => [(ns, ⟨[raw], [f], [tr]⟩)]
  | (k, r) :: rest, ns, raw, f, tr =>
    if k = ns then
      (k, ⟨r.outnames ++ [raw], r.fields ++ [f], r.trans ++ [tr]⟩) :: rest
    else (k, r) :: insertReq rest ns raw f tr

/-- The `fields.forEach` loop of `split_requests` with the accumulated
requests object; a raw field the regex rejects aborts with the thrown
`TypeError` (`none`). -/
def splitRequestsAux (acc : List (String × SplitReq)) :
    List String → Option (List (String × SplitReq))
  | [] => some acc
  | raw :: rest =>
    match matchFieldSpec raw with
    | none => none
    | some (ons, f, tr) =>
      splitRequestsAux (insertReq acc (ons.getD "base") raw f tr) rest

/-- `split_requests` of `LocusZoom.Data.Requester`. -/
def split_requests (fields : List String) :
    Option (List (String × SplitReq)) :=
  splitRequestsAux [] fields

/-- A dynamically-typed record value. -/
inductive JsVal where
  | num (q : ℚ)
  | str (s : String)
deriving Repr, DecidableEq

/-- The accumulating chain `{header, body}`; `body = none` models the
initial empty-object placeholder `{}`, `some rows` a parsed row set. -/
structure Chain where
  header : List (String × JsVal)
  body : Option (List (List (String × JsVal)))
deriving Repr, DecidableEq

/-- The initial chain `Q.when({header:{}, body:{}})`. -/
def emptyChain : Chain := ⟨[], none⟩

/-- `Requester.getData(state, fields)`: group the fields, fail when a
namespace has no source (the thrown `"Datasource for namespace … not
found"`), then resolve namespaces sequentially in grouped order, each
source's resolution (`getData` = cache/fetch/parse, abstracted as a function
of state, request and incoming chain) consuming the previous chain. -/
def requesterGetData {σ : Type}
    (sources : String → Option (σ → SplitReq → Chain → Chain))
    (state : σ) (fields : List String) : Option Chain :=
  match split_requests fields with
  | none => none
  | some reqs =>
    if reqs.all fun kr => (sources kr.1).isSome then
      some (reqs.foldl (fun chain kr =>
        match sources kr.1 with
        | some f => f state kr.2 chain
        | none => chain) emptyChain)
    else none

/-- First-appearance deduplication: the order in which a JavaScript object
collects distinct (non-index) keys. -/
def dedupKeepFirst : List String → List String
  | [] => []
  | x :: xs => x :: dedupKeepFirst (xs.filter (· ≠ x))
termination_by l => l.length
decreasing_by
  simp only [List.length_cons]
  exact Nat.lt_succ_of_le (List.length_filter_le _ _)

/-- Scenario sources for the assoc-then-ld ordering contract: `"assoc"`
unconditionally writes a parsed body; `"ld"` records in the header whether a
body was present when it ran (as its reference-variant lookup would). -/
def demoAssocLdSources : String →
    Option (Unit → SplitReq → Chain → Chain) :=
  fun ns =>
    if ns = "assoc" then
      some fun _ _ c => { c with body := some [[("pvalue", JsVal.num 5)]] }
    else if ns = "ld" then
      some fun _ _ c =>
        { c with header := c.header ++
            [("sawBody", JsVal.str (if c.body.isSome then "yes" else "no"))] }
    else none

end LocusZoom

open LocusZoom

/-- C1: with caching enabled and a defined cache key not equal to the stored
one, the first `getRequest` fetches and stores `(key, response)`; an
immediately following `getRequest` computing the same key serves the stored
response without fetching; and a call whose key differs from the stored key
fetches and replaces the single slot with the new pair. -/
theorem getRequest_cache_single_fetch {κ ρ : Type} [DecidableEq κ]
    (src : SourceCache κ ρ) (k : κ) (r₁ r₂ : ρ)
    (hc : src.enableCache = true) (hk : src.cachedKey ≠ some k) :
    let first := getRequest src (some k) r₁
    let second := getRequest first.source (some k) r₂
    first.fetched = true ∧
    first.response = some r₁ ∧
    first.source.cachedKey = some k ∧
    first.source.cachedResponse = some r₁ ∧
    second.fetched = false ∧
    second.response = some r₁ := by
  simp only [getRequest, hc]
  simp [Ne.symm hk]

/-- Witness for `getRequest_cache_single_fetch` at a concrete source state. -/
theorem getRequest_cache_single_fetch_witness :
    let src : SourceCache Nat Nat := SourceCache.init Nat Nat
    let first := getRequest src (some 7) 100
    let second := getRequest first.source (some 7) 200
    first.fetched = true ∧ first.response = some 100 ∧
    first.source.cachedKey = some 7 ∧ first.source.cachedResponse = some 100 ∧
    second.fetched = false ∧ second.response = some 100 :=
  getRequest_cache_single_fetch (SourceCache.init Nat Nat) 7 100 200
    rfl (by decide)

/-- C10: when `getCacheKey` returns `undefined`, `getRequest` always issues a
fresh fetch and resolves with the fresh response, even when caching is enabled
and a previous call stored a response — an undefined key never produces a
cache hit. -/
theorem getRequest_undefined_key_always_fetches {κ ρ : Type} [DecidableEq κ]
    (src : SourceCache κ ρ) (r : ρ) :
    (getRequest src none r).fetched = true ∧
    (getRequest src none r).response = some r := by
  simp [getRequest]

/-- Witness for `getRequest_undefined_key_always_fetches`: even right after a
store performed by a previous undefined-key call, the next call fetches. -/
theorem getRequest_undefined_key_always_fetches_witness :
    let src : SourceCache Nat Nat := SourceCache.init Nat Nat
    let first := getRequest src none 100
    (getRequest first.source none 200).fetched = true ∧
    (getRequest first.source none 200).response = some 200 :=
  getRequest_undefined_key_always_fetches
    (getRequest (SourceCache.init Nat Nat) none 100).source 200

/-- C3: on a numeric region with `start > end` (both at least 1, midpoint
positive) and no layout scale constraints, `validateState` does NOT swap the
bounds: the `temp` shuffle in the source assigns `end = start` before reading
the old `end`, so both bounds come out equal to the original `start` and the
original `end` value is lost.  At `{chr: 1, start: 100, end: 50}` the code
yields `start = 100, end = 100`, not the swapped `start = 50, end = 100`. -/
theorem validateState_flipped_region_not_swapped :
    validateState ⟨some 1, some 100, some 50⟩ ⟨none, none⟩ =
      ⟨some 100, some 100⟩ ∧
    validateState ⟨some 1, some 100, some 50⟩ ⟨none, none⟩ ≠
      ⟨some 50, some 100⟩ := by
  constructor <;> decide

/-- C4 counterexample: at `start = 1, end = 2, min_region_scale = 100` the
code yields `[1, 101]` — width exactly 100 with the start clamped to 1, but
NOT centered on the original midpoint: the rounded midpoint is 2, while the
result's centre is 51 (`start' + end' = 102`, far outside the
`[start + end, start + end + 2] = [3, 5]` band integer-rounded centering
would require).  When the `≥ 1` clamp binds, the code keeps the width but
abandons the centering the claim asserts. -/
theorem validateState_min_region_scale_not_centered :
    validateState ⟨some 1, some 1, some 2⟩ ⟨some 100, none⟩ =
      ⟨some 1, some 101⟩ ∧
    ¬ ((1 : Int) + 2 ≤ 1 + 101 ∧ (1 : Int) + 101 ≤ 1 + 2 + 2) := by
  constructor <;> decide

/-- C4 (amended): for every numeric region with `1 ≤ start ≤ end` and width
below the configured `min_region_scale` `m`, `validateState` returns a
region of width exactly `m` with `start' ≥ 1`; when the `≥ 1` clamp is
inactive (the unclamped start `midpoint - floor(m/2)` is at least 1) the
region is centred within one unit of the original midpoint
(`start' + end'` lies in `[start + end, start + end + 2]`), and when the
clamp binds the region is pinned at `start' = 1, end' = 1 + m` instead of
being centred. -/
theorem validateState_min_region_scale (s e m : Int)
    (h1 : 1 ≤ s) (hse : s ≤ e) (hscale : e - s < m) :
    ∃ s' e',
      validateState ⟨some 1, some s, some e⟩ ⟨some m, none⟩ =
        ⟨some s', some e'⟩ ∧
      e' - s' = m ∧ 1 ≤ s' ∧
      (1 ≤ (s + e + 1) / 2 - m / 2 →
        s + e ≤ s' + e' ∧ s' + e' ≤ s + e + 2) ∧
      ((s + e + 1) / 2 - m / 2 < 1 → s' = 1 ∧ e' = 1 + m) := by
  have hs : max s 1 = s := max_eq_left h1
  have he : max e 1 = e := max_eq_left (h1.trans hse)
  have hfd : m.fdiv 2 = m / 2 := Int.fdiv_eq_ediv m (by omega)
  have hmid : jsRoundHalf s e = (s + e + 1) / 2 := Int.fdiv_eq_ediv _ (by omega)
  refine ⟨max ((s + e + 1) / 2 - m / 2) 1, max ((s + e + 1) / 2 - m / 2) 1 + m,
    ?_, by ring, le_max_right _ _, ?_, ?_⟩
  · simp only [validateState, Option.isSome_some, and_self, if_true,
      Option.map_some', hs, he, hmid, hfd]
    have hsc : ¬ (e - s < 0) := by omega
    have hm0 : ¬ ((s + e + 1) / 2 < 0) := by omega
    simp only [hsc, if_false, hm0, if_true, hscale]
  · intro hcl
    have hmax : max ((s + e + 1) / 2 - m / 2) 1 = (s + e + 1) / 2 - m / 2 :=
      max_eq_left hcl
    rw [hmax]
    omega
  · intro hcl
    have hmax : max ((s + e + 1) / 2 - m / 2) 1 = 1 := max_eq_right (by omega)
    rw [hmax]
    exact ⟨rfl, rfl⟩

/-- Witness for `validateState_min_region_scale` at
`start = 100, end = 110, min_region_scale = 50` (clamp inactive, so the
centering branch is exercised; the counterexample input exercises the
clamp-active branch concretely). -/
theorem validateState_min_region_scale_witness :
    (1 : Int) ≤ 100 ∧ (100 : Int) ≤ 110 ∧ (110 : Int) - 100 < 50 ∧
    ∃ s' e',
      validateState ⟨some 1, some 100, some 110⟩ ⟨some 50, none⟩ =
        ⟨some s', some e'⟩ ∧
      e' - s' = 50 ∧ 1 ≤ s' ∧
      (1 ≤ ((100 : Int) + 110 + 1) / 2 - 50 / 2 →
        (100 : Int) + 110 ≤ s' + e' ∧ s' + e' ≤ 100 + 110 + 2) ∧
      (((100 : Int) + 110 + 1) / 2 - 50 / 2 < 1 → s' = 1 ∧ e' = 1 + 50) :=
  ⟨by decide, by decide, by decide,
    validateState_min_region_scale 100 110 50 (by decide) (by decide)
      (by decide)⟩

/-- Helper: a query below every key of the position array is never found. -/
theorem ldLookup_eq_none_of_lt (q : Int) (ps : List Int) (rs : List ℚ)
    (h : ∀ k ∈ ps, q < k) : ldLookup q ps rs = none := by
  induction ps generalizing rs with
  | nil => cases rs <;> rfl
  | cons p ps ih =>
    cases rs with
    | nil => rfl
    | cons r rs =>
      have hqp : ¬ q = p := by
        have := h p (List.mem_cons_self p ps)
        omega
      simp only [ldLookup, if_neg hqp]
      exact ih rs fun k hk => h k (List.mem_cons_of_mem p hk)

/-- C5: on a chain body strictly ascending by the merge position field and a
response whose `position2` array is strictly ascending (with `rsquare` of the
same length), the merge join is exactly a positionwise left join: every chain
row whose position occurs in `position2` gets the corresponding `rsquare`
value written into the LD output column, every other chain row — and every
row's `pos` and `rest` fields — comes back unchanged, no row is dropped or
added, and no error is raised (the function is total). -/
theorem leftJoin_sorted_is_positionwise (l : List LDRow) (ps : List Int)
    (rs : List ℚ)
    (hl : l.Pairwise (fun a b => a.pos < b.pos))
    (hr : ps.Pairwise (· < ·))
    (hlen : ps.length = rs.length) :
    leftJoin l ps rs = l.map (fun a =>
      match ldLookup a.pos ps rs with
      | some r => { a with ld := some r }
      | none => a) := by
  induction l, ps, rs using leftJoin.induct with
  | case1 l rs =>
    simp only [leftJoin, ldLookup]
    exact (List.map_id'' (fun _ => rfl) l).symm
  | case2 p ps rs =>
    simp [leftJoin]
  | case3 a l ps rs ih =>
    obtain ⟨r, rs', rfl⟩ : ∃ r rs', rs = r :: rs' := by
      cases rs with
      | nil => simp at hlen
      | cons r rs' => exact ⟨r, rs', rfl⟩
    have h1 : leftJoin (a :: l) (a.pos :: ps) (r :: rs') =
        { a with ld := some r } :: leftJoin l ps rs' := by
      simp [leftJoin]
    rw [h1, List.map_cons]
    congr 1
    · simp [ldLookup]
    · have ih' := ih hl.tail hr.tail (by simpa using hlen)
      simp only [List.tail] at ih'
      rw [ih']
      refine List.map_congr_left fun b hb => ?_
      have hbp : ¬ b.pos = a.pos := by
        have := (List.pairwise_cons.mp hl).1 b hb
        omega
      simp [ldLookup, hbp]
  | case4 a l p ps rs hne hlt ih =>
    obtain ⟨r, rs', rfl⟩ : ∃ r rs', rs = r :: rs' := by
      cases rs with
      | nil => simp at hlen
      | cons r rs' => exact ⟨r, rs', rfl⟩
    have h1 : leftJoin (a :: l) (p :: ps) (r :: rs') =
        a :: leftJoin l (p :: ps) (r :: rs') := by
      simp [leftJoin, hne, hlt]
    rw [h1, List.map_cons]
    congr 1
    · have hnone : ldLookup a.pos ps rs' = none := by
        refine ldLookup_eq_none_of_lt _ _ _ fun k hk => ?_
        have := (List.pairwise_cons.mp hr).1 k hk
        omega
      simp [ldLookup, hne, hnone]
    · exact ih hl.tail hr hlen
  | case5 a l p ps rs hne hnlt ih =>
    have hgt : p < a.pos := by omega
    obtain ⟨r, rs', rfl⟩ : ∃ r rs', rs = r :: rs' := by
      cases rs with
      | nil => simp at hlen
      | cons r rs' => exact ⟨r, rs', rfl⟩
    have h1 : leftJoin (a :: l) (p :: ps) (r :: rs') =
        leftJoin (a :: l) ps rs' := by
      simp [leftJoin, hne, hnlt]
    have ih' := ih hl hr.tail (by simpa using hlen)
    simp only [List.tail] at ih'
    rw [h1, ih']
    refine List.map_congr_left fun b hb => ?_
    have hbp : ¬ b.pos = p := by
      rcases List.mem_cons.mp hb with rfl | hbl
      · omega
      · have := (List.pairwise_cons.mp hl).1 b hbl
        omega
    simp [ldLookup, hbp]

/-- Witness for `leftJoin_sorted_is_positionwise`: chain rows at positions
10/20/30, response rows at positions 20/25: only the row at 20 receives an
rsquare value, the rows at 10 and 30 and the response row at 25 are skipped
silently, and `pos`/`rest` survive untouched. -/
theorem leftJoin_sorted_is_positionwise_witness :
    leftJoin
      [⟨10, none, [("beta", 1)]⟩, ⟨20, none, [("beta", 2)]⟩,
        ⟨30, none, [("beta", 3)]⟩]
      [20, 25] [(1 : ℚ)/2, 3/4] =
    List.map (fun a =>
      match ldLookup a.pos [20, 25] [(1 : ℚ)/2, 3/4] with
      | some r => { a with ld := some r }
      | none => a)
      [⟨10, none, [("beta", 1)]⟩, ⟨20, none, [("beta", 2)]⟩,
        ⟨30, none, [("beta", 3)]⟩] :=
  leftJoin_sorted_is_positionwise _ _ _ (by decide) (by decide) (by decide)

/-- Helper: the present-guard throws for the first missing field, naming the
field and its requested output name. -/
theorem checkFieldsPresent_error (keys : List String) (fields outs : List String)
    (i : Nat) (f o : String)
    (hf : fields.get? i = some f) (ho : outs.get? i = some o)
    (hmiss : f ∉ keys)
    (hprev : ∀ g ∈ fields.take i, g ∈ keys) :
    checkFieldsPresent keys fields outs =
      .error ("field " ++ f ++ " not found in response for " ++ o) := by
  induction fields generalizing i outs with
  | nil => simp at hf
  | cons g fs ih =>
    cases i with
    | zero =>
      obtain rfl : g = f := by simpa using hf
      obtain ⟨o', outs', rfl⟩ : ∃ o' outs', outs = o' :: outs' := by
        cases outs with
        | nil => simp at ho
        | cons o' outs' => exact ⟨o', outs', rfl⟩
      obtain rfl : o' = o := by simpa using ho
      simp [checkFieldsPresent, hmiss, jsShowOpt]
    | succ n =>
      obtain ⟨o', outs', rfl⟩ : ∃ o' outs', outs = o' :: outs' := by
        cases outs with
        | nil => simp at ho
        | cons o' outs' => exact ⟨o', outs', rfl⟩
      have hg : g ∈ keys := hprev g (by simp)
      simp only [checkFieldsPresent, if_pos hg, List.tail]
      exact ih outs' n (by simpa using hf) (by simpa using ho)
        fun g' hg' => hprev g' (by simp [List.take, hg'] )

/-- Helper: the found-guard throws for the first never-defined field, naming
the field and its requested output name. -/
theorem checkFieldsFound_error {α : Type} (x : List (List (String × α)))
    (fields outs : List String) (i : Nat) (f o : String)
    (hf : fields.get? i = some f) (ho : outs.get? i = some o)
    (hmiss : objectsFieldFound x f = false)
    (hprev : ∀ g ∈ fields.take i, objectsFieldFound x g = true) :
    checkFieldsFound x fields outs =
      .error ("field " ++ f ++ " not found in response for " ++ o) := by
  induction fields generalizing i outs with
  | nil => simp at hf
  | cons g fs ih =>
    cases i with
    | zero =>
      obtain rfl : g = f := by simpa using hf
      obtain ⟨o', outs', rfl⟩ : ∃ o' outs', outs = o' :: outs' := by
        cases outs with
        | nil => simp at ho
        | cons o' outs' => exact ⟨o', outs', rfl⟩
      obtain rfl : o' = o := by simpa using ho
      simp [checkFieldsFound, hmiss, jsShowOpt]
    | succ n =>
      obtain ⟨o', outs', rfl⟩ : ∃ o' outs', outs = o' :: outs' := by
        cases outs with
        | nil => simp at ho
        | cons o' outs' => exact ⟨o', outs', rfl⟩
      have hg : objectsFieldFound x g = true := hprev g (by simp)
      simp only [checkFieldsFound, hg, if_pos, List.tail]
      exact ih outs' n (by simpa using hf) (by simpa using ho)
        fun g' hg' => hprev g' (by simp [List.take, hg'])

/-- C6: for both default parsers, a requested field absent from the response
(the key missing from an object-of-arrays response; the field undefined in
every row of an array-of-objects response) makes parsing throw an error
naming both the missing field and its requested output name, and no record
set is produced.  `i` is the first failing position in `fields`. -/
theorem parse_missing_field_throws {α : Type}
    (xa : List (String × List α)) (xo : List (List (String × α)))
    (fields outnames : List String)
    (trans : List (Option (Option α → Option α))) (i : Nat) (f o : String)
    (hf : fields.get? i = some f) (ho : outnames.get? i = some o)
    (hmissA : f ∉ xa.map Prod.fst)
    (hprevA : ∀ g ∈ fields.take i, g ∈ xa.map Prod.fst)
    (hmissO : objectsFieldFound xo f = false)
    (hprevO : ∀ g ∈ fields.take i, objectsFieldFound xo g = true) :
    parseArraysToObjects xa fields outnames trans =
      .error ("field " ++ f ++ " not found in response for " ++ o) ∧
    parseObjectsToObjects xo fields outnames trans =
      .error ("field " ++ f ++ " not found in response for " ++ o) := by
  constructor
  · rw [parseArraysToObjects,
      checkFieldsPresent_error (xa.map Prod.fst) fields outnames i f o hf ho
        hmissA hprevA]
  · rw [parseObjectsToObjects,
      checkFieldsFound_error xo fields outnames i f o hf ho hmissO hprevO]

/-- Witness for `parse_missing_field_throws`: requesting `["id", "pvalue"]`
against responses that define only `id`; the second field fails and the error
names `pvalue` together with its output name `assoc:pvalue`. -/
theorem parse_missing_field_throws_witness :
    (["id", "pvalue"].get? 1 = some "pvalue") ∧
    (["assoc:id", "assoc:pvalue"].get? 1 = some "assoc:pvalue") ∧
    ("pvalue" ∉ ([("id", [1, 2]), ("position", [3, 4])] :
        List (String × List Int)).map Prod.fst) ∧
    (∀ g ∈ ["id", "pvalue"].take 1,
      g ∈ ([("id", [1, 2]), ("position", [3, 4])] :
        List (String × List Int)).map Prod.fst) ∧
    (objectsFieldFound ([[("id", (1 : Int))], [("id", 2)]]) "pvalue" = false) ∧
    (∀ g ∈ ["id", "pvalue"].take 1,
      objectsFieldFound ([[("id", (1 : Int))], [("id", 2)]]) g = true) ∧
    (parseArraysToObjects [("id", [(1 : Int), 2]), ("position", [3, 4])]
        ["id", "pvalue"] ["assoc:id", "assoc:pvalue"] [none, none] =
      .error ("field " ++ "pvalue" ++ " not found in response for " ++
        "assoc:pvalue") ∧
    parseObjectsToObjects [[("id", (1 : Int))], [("id", 2)]]
        ["id", "pvalue"] ["assoc:id", "assoc:pvalue"] [none, none] =
      .error ("field " ++ "pvalue" ++ " not found in response for " ++
        "assoc:pvalue")) :=
  ⟨by decide, by decide, by decide, by decide, by decide, by decide,
    parse_missing_field_throws [("id", [1, 2]), ("position", [3, 4])]
      [[("id", (1 : Int))], [("id", 2)]] ["id", "pvalue"]
      ["assoc:id", "assoc:pvalue"] [none, none] 1 "pvalue" "assoc:pvalue"
      (by decide) (by decide) (by decide) (by decide) (by decide) (by decide)⟩

/-- C7 counterexample: axis with `field` set, data `[5, 10]`, only
`floor = 0` configured.  The data-derived extent is `[5, 10]` and the data
already lies inside the bound (`0 ≤ 5`), yet the result is `[0, 10]`: the
lone configured bound replaced the data-derived minimum and WIDENED the
extent past it, contradicting the claim that the bound only tightens its own
side. -/
theorem getAxisExtent_single_bound_claim_false :
    getAxisExtent Dim.y
      ⟨some "v", some 0, none, none, none, none⟩ [5, 10] none none =
      [0, 10] ∧
    derivedExtent ⟨some "v", some 0, none, none, none, none⟩ [5, 10] =
      (5, 10) ∧
    (0 : ℚ) < 5 := by
  refine ⟨?_, ?_, by norm_num⟩ <;> decide

/-- C7 (amended): with a field configured, non-empty data and exactly one of
floor/ceiling configured, the configured bound replaces its own end of the
data-derived extent verbatim (it may tighten or widen that side), and the
opposite end equals the data-derived value. -/
theorem getAxisExtent_single_bound (dim : Dim) (ax : AxisLayout)
    (data : List ℚ) (ss se : Option ℚ)
    (hfield : ax.field.isSome = true) (hdata : data ≠ []) :
    (∀ f, ax.floor = some f → ax.ceiling = none →
      getAxisExtent dim ax data ss se = [f, (derivedExtent ax data).2]) ∧
    (∀ c, ax.ceiling = some c → ax.floor = none →
      getAxisExtent dim ax data ss se = [(derivedExtent ax data).1, c]) := by
  constructor
  · intro f hfl hcl
    simp [getAxisExtent, hfl, hcl, hfield, hdata]
  · intro c hcl hfl
    simp [getAxisExtent, hfl, hcl, hfield, hdata]

/-- Witness for `getAxisExtent_single_bound`: data `[5, 10]`, floor `2` only,
then ceiling `7` only. -/
theorem getAxisExtent_single_bound_witness :
    ((⟨some "v", some 2, none, none, none, none⟩ :
        AxisLayout).field.isSome = true) ∧
    ([(5 : ℚ), 10] ≠ []) ∧
    (∀ f, (⟨some "v", some 2, none, none, none, none⟩ :
        AxisLayout).floor = some f →
      (⟨some "v", some 2, none, none, none, none⟩ :
        AxisLayout).ceiling = none →
      getAxisExtent Dim.y ⟨some "v", some 2, none, none, none, none⟩
          [5, 10] none none =
        [f, (derivedExtent ⟨some "v", some 2, none, none, none, none⟩
          [5, 10]).2]) ∧
    (∀ c, (⟨some "v", some 2, none, none, none, none⟩ :
        AxisLayout).ceiling = some c →
      (⟨some "v", some 2, none, none, none, none⟩ :
        AxisLayout).floor = none →
      getAxisExtent Dim.y ⟨some "v", some 2, none, none, none, none⟩
          [5, 10] none none =
        [(derivedExtent ⟨some "v", some 2, none, none, none, none⟩
          [5, 10]).1, c]) :=
  ⟨by decide, by decide,
    (getAxisExtent_single_bound Dim.y ⟨some "v", some 2, none, none, none, none⟩
      [5, 10] none none (by decide) (by decide)).1,
    (getAxisExtent_single_bound Dim.y ⟨some "v", some 2, none, none, none, none⟩
      [5, 10] none none (by decide) (by decide)).2⟩

/-- C8: in-progress drag, `toggleDragging` called (stop branch): when the net
displacement on the dragged axis is non-zero, every child data layer bound to
that axis (`axis == 1` for x; `axis == n` for the dragged y axis) gets its
axis layout's floor/ceiling overwritten with the committed extent and its
buffer/min_extent/ticks directives deleted, while unbound layers and the
other axis layout are untouched; when the net displacement is zero, no data
layer is modified at all. -/
theorem toggleDragging_commit (p : Panel) (m : Option String) (ci : Bool)
    (co : ℚ × ℚ) (d : DragState) (hd : p.dragging = some d) :
    dragCommitSpec p m ci co d := by
  refine ⟨?_, ?_, ?_⟩
  · intro hm hx
    have hql : (toggleDragging p m ci co).data_layers =
        overrideAxisLayout Dim.x 1 p.x_extent p.data_layers := by
      rcases hm with hm | hm <;> simp [toggleDragging, hd, hm, hx]
    constructor
    · rw [hql]; simp [overrideAxisLayout]
    · intro i old new hold hnew
      rw [hql] at hnew
      simp only [overrideAxisLayout, List.get?_map, hold, Option.map_some',
        Option.some.injEq] at hnew
      refine ⟨fun hb => ?_, fun hb => ?_, ?_⟩
      · rw [← hnew, if_pos hb]
      · rw [← hnew, if_neg hb]
      · by_cases hb : old.x_axis.axis = some 1
        · rw [← hnew, if_pos hb]
        · rw [← hnew, if_neg hb]
  · intro n hn hy
    have hql : (toggleDragging p m ci co).data_layers =
        overrideAxisLayout Dim.y n
          (if n = 1 then p.y1_extent else p.y2_extent) p.data_layers := by
      rcases hn with ⟨rfl, hm⟩ | ⟨rfl, hm⟩ <;>
      · have h1 : ¬ (d.method = some "background" ∨
            d.method = some "x_tick") := by
          rw [hm]; decide
        simp [toggleDragging, hd, h1, hm, hy]
    constructor
    · rw [hql]; simp [overrideAxisLayout]
    · intro i old new hold hnew
      rw [hql] at hnew
      simp only [overrideAxisLayout, List.get?_map, hold, Option.map_some',
        Option.some.injEq] at hnew
      refine ⟨fun hb => ?_, fun hb => ?_, ?_⟩
      · rw [← hnew, if_pos hb]
      · rw [← hnew, if_neg hb]
      · by_cases hb : old.y_axis.axis = some n
        · rw [← hnew, if_pos hb]
        · rw [← hnew, if_neg hb]
  · intro h0
    rcases h0 with ⟨hm, hx⟩ | ⟨hm, hy⟩
    · rcases hm with hm | hm <;> simp [toggleDragging, hd, hm, hx]
    · rcases hm with hm | hm <;>
      · have h1 : ¬ (d.method = some "background" ∨
            d.method = some "x_tick") := by
          rw [hm]; decide
        simp [toggleDragging, hd, h1, hm, hy]

/-- Witness for `toggleDragging_commit`: a panel mid-drag (`x_tick`, net x
displacement 5) with one layer bound to the x axis and one unbound layer. -/
theorem toggleDragging_commit_witness :
    (Panel.mk (some (DragState.mk (some "x_tick") 0 0 5 0 true false false))
      [DataLayerAxes.mk
        (DLAxisLayout.mk (some 1) (some "pos") none none (some 1) (some 1)
          (some (0, 1)) (some [5]))
        (DLAxisLayout.mk (some 1) (some "pv") none none none none none none),
       DataLayerAxes.mk
        (DLAxisLayout.mk none none none none none none none none)
        (DLAxisLayout.mk (some 2) none none none none none none none)]
      (10, 20) (0, 1) (0, 2) none).dragging =
      some (DragState.mk (some "x_tick") 0 0 5 0 true false false) ∧
    dragCommitSpec
      (Panel.mk (some (DragState.mk (some "x_tick") 0 0 5 0 true false false))
        [DataLayerAxes.mk
          (DLAxisLayout.mk (some 1) (some "pos") none none (some 1) (some 1)
            (some (0, 1)) (some [5]))
          (DLAxisLayout.mk (some 1) (some "pv") none none none none none none),
         DataLayerAxes.mk
          (DLAxisLayout.mk none none none none none none none none)
          (DLAxisLayout.mk (some 2) none none none none none none none)]
        (10, 20) (0, 1) (0, 2) none)
      none true (0, 0)
      (DragState.mk (some "x_tick") 0 0 5 0 true false false) :=
  ⟨rfl, toggleDragging_commit _ none true (0, 0) _ rfl⟩

/-- Helper: scaling every proportional height by `c` scales the sum of the
defaulted proportional heights by `c`. -/
theorem sum_getD_scale (l : List PanelDim) (c : ℚ) :
    ((l.map fun p =>
      ({ p with proportional_height := p.proportional_height.map (· * c) } :
        PanelDim)).map fun p => p.proportional_height.getD 0).sum =
    ((l.map fun p => p.proportional_height.getD 0).sum) * c := by
  induction l with
  | nil => simp
  | cons p ps ih =>
    cases hp : p.proportional_height <;>
      simp [hp, add_mul, ← List.map_map, ih]

/-- C9: whenever the padded total is non-zero (in particular whenever there
is at least one panel contributing a positive share), the pass leaves the
panel count unchanged and the proportional heights summing to exactly 1;
a panel with no proportional height got a share first (pixel height over
plot height, or the equal share `1/N` when that is falsy) before every share
was multiplied by the reciprocal of the total. -/
theorem positionPanels_normalizes (H : ℚ) (ps : List PanelDim)
    (htot : (sumProportional (assignProportionalFromPixels H ps)).1 ≠ 0) :
    ((positionPanelsHeights H ps).map
      fun p => p.proportional_height.getD 0).sum = 1 ∧
    (positionPanelsHeights H ps).length = ps.length := by
  constructor
  · simp only [positionPanelsHeights]
    rw [if_neg htot, sum_getD_scale]
    have hfst : ((sumProportional (assignProportionalFromPixels H ps)).2.map
        fun p => p.proportional_height.getD 0).sum =
      (sumProportional (assignProportionalFromPixels H ps)).1 := rfl
    rw [hfst, mul_one_div, div_self htot]
  · simp only [positionPanelsHeights]
    split
    · simp [sumProportional, assignProportionalFromPixels]
    · simp [sumProportional, assignProportionalFromPixels]

/-- Witness for `positionPanels_normalizes`: plot height 100, one panel with
explicit share 3, one with `null` share and pixel height 50, one with falsy
share 0; the padded total `3 + 1/2 + 1/3` is non-zero and the pass
normalizes the shares to sum to exactly 1. -/
theorem positionPanels_normalizes_witness :
    ((sumProportional (assignProportionalFromPixels 100
        [⟨40, some 3⟩, ⟨50, none⟩, ⟨10, some 0⟩])).1 ≠ 0) ∧
    (((positionPanelsHeights 100
        [⟨40, some 3⟩, ⟨50, none⟩, ⟨10, some 0⟩]).map
      fun p => p.proportional_height.getD 0).sum = 1 ∧
    (positionPanelsHeights 100
        [⟨40, some 3⟩, ⟨50, none⟩, ⟨10, some 0⟩]).length =
      ([⟨40, some 3⟩, ⟨50, none⟩, ⟨10, some 0⟩] : List PanelDim).length) :=
  have hp : (sumProportional (assignProportionalFromPixels 100
      [⟨40, some 3⟩, ⟨50, none⟩, ⟨10, some 0⟩])).1 ≠ 0 := by
    norm_num [sumProportional, assignProportionalFromPixels]
  ⟨hp, positionPanels_normalizes 100 _ hp⟩

/-- Helper: updating an existing namespace entry leaves the key list alone. -/
theorem insertReq_keys_of_mem (acc : List (String × SplitReq)) (ns raw f : String)
    (tr : Option String) (h : ns ∈ acc.map Prod.fst) :
    (insertReq acc ns raw f tr).map Prod.fst = acc.map Prod.fst := by
  induction acc with
  | nil => simp at h
  | cons kr rest ih =>
    obtain ⟨k, r⟩ := kr
    by_cases hk : k = ns
    · simp [insertReq, hk]
    · have hmem : ns ∈ rest.map Prod.fst := by
        rcases List.mem_cons.mp h with he | hm
        · exact absurd he.symm hk
        · exact hm
      simp [insertReq, hk, ih hmem]

/-- Helper: a first-seen namespace is appended at the end of the key list. -/
theorem insertReq_keys_of_not_mem (acc : List (String × SplitReq))
    (ns raw f : String) (tr : Option String) (h : ns ∉ acc.map Prod.fst) :
    (insertReq acc ns raw f tr).map Prod.fst = acc.map Prod.fst ++ [ns] := by
  induction acc with
  | nil => simp [insertReq]
  | cons kr rest ih =>
    obtain ⟨k, r⟩ := kr
    have hk : ¬ k = ns := by
      intro he
      exact h (by simp [he])
    have hmem : ns ∉ rest.map Prod.fst := fun hm => h (by simp [hm])
    simp [insertReq, hk, ih hmem]

/-- Helper: the grouped namespaces of `splitRequestsAux` extend the
accumulator's keys by the not-yet-seen namespaces in first-appearance
order. -/
theorem splitRequestsAux_keys (fields : List String) :
    ∀ acc : List (String × SplitReq),
    (∀ raw ∈ fields, (matchFieldSpec raw).isSome = true) →
    ∃ reqs, splitRequestsAux acc fields = some reqs ∧
      reqs.map Prod.fst = acc.map Prod.fst ++
        dedupKeepFirst ((fields.filterMap nsOf).filter
          (fun x => x ∉ acc.map Prod.fst)) := by
  induction fields with
  | nil =>
    intro acc h
    exact ⟨acc, rfl, by simp [dedupKeepFirst]⟩
  | cons raw rest ih =>
    intro acc h
    obtain ⟨⟨ons, f, tr⟩, hm⟩ : ∃ v, matchFieldSpec raw = some v :=
      Option.isSome_iff_exists.mp (h raw (List.mem_cons_self raw rest))
    have hns : nsOf raw = some (ons.getD "base") := by simp [nsOf, hm]
    have hrest : ∀ r ∈ rest, (matchFieldSpec r).isSome = true :=
      fun r hr => h r (List.mem_cons_of_mem raw hr)
    have hstep : splitRequestsAux acc (raw :: rest) =
        splitRequestsAux (insertReq acc (ons.getD "base") raw f tr) rest := by
      simp [splitRequestsAux, hm]
    have hfm : (raw :: rest).filterMap nsOf =
        (ons.getD "base") :: rest.filterMap nsOf := by
      simp [List.filterMap_cons, hns]
    by_cases hmem : (ons.getD "base") ∈ acc.map Prod.fst
    · obtain ⟨reqs, h1, h2⟩ := ih (insertReq acc (ons.getD "base") raw f tr) hrest
      refine ⟨reqs, hstep ▸ h1, ?_⟩
      rw [h2, insertReq_keys_of_mem _ _ _ _ _ hmem, hfm]
      have hfc : ((ons.getD "base") :: rest.filterMap nsOf).filter
          (fun x => x ∉ acc.map Prod.fst) =
        (rest.filterMap nsOf).filter (fun x => x ∉ acc.map Prod.fst) := by
        simp [List.filter_cons, hmem]
      rw [hfc]
    · obtain ⟨reqs, h1, h2⟩ := ih (insertReq acc (ons.getD "base") raw f tr) hrest
      refine ⟨reqs, hstep ▸ h1, ?_⟩
      rw [h2, insertReq_keys_of_not_mem _ _ _ _ _ hmem, hfm]
      have hfc : ((ons.getD "base") :: rest.filterMap nsOf).filter
          (fun x => x ∉ acc.map Prod.fst) =
        (ons.getD "base") :: ((rest.filterMap nsOf).filter
          (fun x => x ∉ acc.map Prod.fst)) := by
        simp [List.filter_cons, hmem]
      rw [hfc, dedupKeepFirst]
      have hff : (rest.filterMap nsOf).filter
          (fun x => x ∉ acc.map Prod.fst ++ [ons.getD "base"]) =
        ((rest.filterMap nsOf).filter (fun x => x ∉ acc.map Prod.fst)).filter
          (fun x => x ≠ ons.getD "base") := by
        rw [List.filter_filter]
        refine List.filter_congr fun x _ => ?_
        simp only [List.mem_append, List.mem_singleton, decide_not]
        rcases Decidable.em (x = ons.getD "base") with he | he <;>
          rcases Decidable.em (x ∈ acc.map Prod.fst) with hi | hi <;>
            simp [he, hi]
      rw [hff, List.append_assoc]
      rfl

/-- Helper: first-appearance deduplication only keeps original elements. -/
theorem mem_of_mem_dedupKeepFirst :
    ∀ (l : List String) (x : String), x ∈ dedupKeepFirst l → x ∈ l := by
  intro l
  induction l using dedupKeepFirst.induct with
  | case1 => simp [dedupKeepFirst]
  | case2 x xs ih =>
    intro y hy
    rw [dedupKeepFirst] at hy
    rcases List.mem_cons.mp hy with he | hm
    · exact he ▸ List.mem_cons_self x xs
    · exact List.mem_cons_of_mem x (List.mem_of_mem_filter (ih y hm))

/-- Helper: first-appearance deduplication yields distinct keys. -/
theorem dedupKeepFirst_nodup : ∀ l : List String, (dedupKeepFirst l).Nodup := by
  intro l
  induction l using dedupKeepFirst.induct with
  | case1 => simp [dedupKeepFirst]
  | case2 x xs ih =>
    rw [dedupKeepFirst]
    refine List.nodup_cons.mpr ⟨?_, ih⟩
    intro hx
    have hmem := mem_of_mem_dedupKeepFirst _ _ hx
    have := (List.mem_filter.mp hmem).2
    simp at this

/-- C2: when every requested field parses, the Requester groups the field
specs by namespace in order of each namespace's first appearance in the
fields array with distinct keys — so each namespace's source is resolved
exactly once, sequentially in that declaration order from the empty chain —
and for the assoc/ld scenario the declaration order is observable: declared
`["assoc:pvalue", "ld:isrefvar"]`, the `ld` source sees the `assoc` body on
its incoming chain; with the declaration order reversed it runs first and
sees no body, yielding a different final chain. -/
theorem requester_declaration_order (fields : List String)
    (h : ∀ raw ∈ fields, (matchFieldSpec raw).isSome = true) :
    (∃ reqs, split_requests fields = some reqs ∧
      reqs.map Prod.fst = dedupKeepFirst (fields.filterMap nsOf) ∧
      (reqs.map Prod.fst).Nodup) ∧
    requesterGetData demoAssocLdSources () ["assoc:pvalue", "ld:isrefvar"] =
      some ⟨[("sawBody", JsVal.str "yes")],
        some [[("pvalue", JsVal.num 5)]]⟩ ∧
    requesterGetData demoAssocLdSources () ["ld:isrefvar", "assoc:pvalue"] =
      some ⟨[("sawBody", JsVal.str "no")],
        some [[("pvalue", JsVal.num 5)]]⟩ := by
  refine ⟨?_, ?_, ?_⟩
  · obtain ⟨reqs, h1, h2⟩ := splitRequestsAux_keys fields [] h
    have hkeys : reqs.map Prod.fst = dedupKeepFirst (fields.filterMap nsOf) := by
      simpa using h2
    exact ⟨reqs, h1, hkeys, hkeys ▸ dedupKeepFirst_nodup _⟩
  · rfl
  · rfl

/-- Witness for `requester_declaration_order` at the scenario's own field
list. -/
theorem requester_declaration_order_witness :
    (∀ raw ∈ ["assoc:pvalue", "ld:isrefvar"],
      (matchFieldSpec raw).isSome = true) ∧
    ((∃ reqs, split_requests ["assoc:pvalue", "ld:isrefvar"] = some reqs ∧
      reqs.map Prod.fst =
        dedupKeepFirst (["assoc:pvalue", "ld:isrefvar"].filterMap nsOf) ∧
      (reqs.map Prod.fst).Nodup) ∧
    requesterGetData demoAssocLdSources () ["assoc:pvalue", "ld:isrefvar"] =
      some ⟨[("sawBody", JsVal.str "yes")],
        some [[("pvalue", JsVal.num 5)]]⟩ ∧
    requesterGetData demoAssocLdSources () ["ld:isrefvar", "assoc:pvalue"] =
      some ⟨[("sawBody", JsVal.str "no")],
        some [[("pvalue", JsVal.num 5)]]⟩) :=
  ⟨by decide, requester_declaration_order ["assoc:pvalue", "ld:isrefvar"]
    (by decide)⟩
